import Mathlib

/-!
Verification of the computational core of `3rouges1vert.py`: the
Heikin-Ashi transformer `compute_heikin_ashi` and the four-bar pattern
matcher `match_pattern_last4`.

Two shallow embeddings are given:

* a rational-valued model (`Bar`, `HABar`, `computeHeikinAshi`,
  `matchPatternLast4`) for well-formed numeric series, where every price
  is an exact rational number;
* a NaN-aware model (`BarN`, `HABarN`, `computeHeikinAshiN`,
  `matchPatternLast4N`) in which a value is `Option ℚ`, `none` playing
  the role of IEEE NaN: arithmetic with `none` yields `none`, strict
  comparisons against `none` are `false`, and the pandas row-wise
  `max`/`min` skip `none` entries (pandas `skipna=True` default).

`compute_heikin_ashi` evaluates `df["Open"].iloc[0]` before its loop, so
on a length-0 frame it raises `IndexError`; the embedding returns an
`Option (List HABar)` that is `none` exactly on the empty input.
-/

/-- A raw OHLC bar, fields named after the pandas columns
`Open`, `High`, `Low`, `Close` used by the source. -/
structure Bar where
  Open : ℚ
  High : ℚ
  Low : ℚ
  Close : ℚ
deriving DecidableEq, Repr

/-- A smoothed (Heikin-Ashi) bar, same four fields. -/
structure HABar where
  Open : ℚ
  High : ℚ
  Low : ℚ
  Close : ℚ
deriving DecidableEq, Repr

/-- Default bar used with `List.getD`. -/
def dumBar : Bar := ⟨0, 0, 0, 0⟩

/-- Default smoothed bar used with `List.getD`. -/
def dumHA : HABar := ⟨0, 0, 0, 0⟩

/-- `ha["Close"]` for one row: `(Open + High + Low + Close) / 4`
(source line `ha["Close"] = (df["Open"] + df["High"] + df["Low"] + df["Close"]) / 4`). -/
def haClose (b : Bar) : ℚ := (b.Open + b.High + b.Low + b.Close) / 4

/-- The `ha_open` accumulation loop
`for i in range(1, len(df)): ha_open.append((ha_open[i-1] + ha["Close"].iloc[i-1]) / 2)`:
given the previous entry `prevOpen` and the previous raw bar `prevBar`
(whose smoothed close is `haClose prevBar`), produce the remaining entries,
one per remaining raw bar. -/
def haOpenAux (prevOpen : ℚ) (prevBar : Bar) : List Bar → List ℚ
  | [] => []
  | b :: bs =>
    let o := (prevOpen + haClose prevBar) / 2
    o :: haOpenAux o b bs

/-- The full `ha_open` list, seeded with
`ha_open = [(df["Open"].iloc[0] + df["Close"].iloc[0]) / 2]`. -/
def haOpenList : List Bar → List ℚ
  | [] => []
  | b :: bs => ((b.Open + b.Close) / 2) :: haOpenAux ((b.Open + b.Close) / 2) b bs

/-- Assembling one smoothed row: `Close` is the four-field average, `Open`
comes from the recurrence list, `High`/`Low` are the row-wise max/min of
`df["High"]`/`df["Low"]`, `ha["Open"]`, `ha["Close"]`. -/
def mkHABar (b : Bar) (o : ℚ) : HABar :=
  { Open := o
    High := max b.High (max o (haClose b))
    Low := min b.Low (min o (haClose b))
    Close := haClose b }

/-- `compute_heikin_ashi`. The source reads `df["Open"].iloc[0]` before the
loop, which raises `IndexError` on an empty frame; that fallible access is
modelled by returning `none` on the empty list. -/
def computeHeikinAshi (df : List Bar) : Option (List HABar) :=
  match df with
  | [] => none
  | _ :: _ => some (List.zipWith mkHABar df (haOpenList df))

/-- `match_pattern_last4`: `reds = ha.iloc[-4:-1]`, `green = ha.iloc[-1]`;
returns `(reds["Close"] < reds["Open"]).sum() == 3 and green["Close"] > green["Open"]
and green["Close"] > reds.iloc[-1]["Close"]`. -/
def matchPatternLast4 (ha : List HABar) : Bool :=
  if ha.length < 4 then false
  else
    match ha.drop (ha.length - 4) with
    | [b0, b1, b2, b3] =>
      ([b0, b1, b2].countP (fun b => decide (b.Close < b.Open)) == 3)
        && decide (b3.Close > b3.Open) && decide (b3.Close > b2.Close)
    | _ => false

-- ### NaN-aware model: values are `Option ℚ`, `none` standing for NaN.

/-- Float addition with NaN: any `none` operand makes the sum `none`. -/
def vadd : Option ℚ → Option ℚ → Option ℚ
  | some a, some b => some (a + b)
  | _, _ => none

/-- Division by a (non-NaN) constant: NaN propagates. -/
def vdiv (a : Option ℚ) (q : ℚ) : Option ℚ := a.map (fun x => x / q)

/-- Strict `<` with float-NaN semantics: any comparison against NaN is `false`. -/
def vlt : Option ℚ → Option ℚ → Bool
  | some a, some b => decide (a < b)
  | _, _ => false

/-- Row-wise two-value max with pandas `skipna=True` semantics: NaN entries
are skipped; the result is NaN only when both entries are NaN. -/
def vmax2 : Option ℚ → Option ℚ → Option ℚ
  | none, x => x
  | some a, none => some a
  | some a, some b => some (max a b)

/-- Row-wise two-value min with pandas `skipna=True` semantics. -/
def vmin2 : Option ℚ → Option ℚ → Option ℚ
  | none, x => x
  | some a, none => some a
  | some a, some b => some (min a b)

/-- Raw bar in the NaN-aware model. -/
structure BarN where
  Open : Option ℚ
  High : Option ℚ
  Low : Option ℚ
  Close : Option ℚ
deriving DecidableEq

/-- Smoothed bar in the NaN-aware model. -/
structure HABarN where
  Open : Option ℚ
  High : Option ℚ
  Low : Option ℚ
  Close : Option ℚ
deriving DecidableEq

/-- Default raw bar for `List.getD` in the NaN-aware model. -/
def dumBarN : BarN := ⟨none, none, none, none⟩

/-- Default smoothed bar for `List.getD` in the NaN-aware model. -/
def dumHAN : HABarN := ⟨none, none, none, none⟩

/-- `ha["Close"]` in the NaN-aware model. -/
def haCloseN (b : BarN) : Option ℚ :=
  vdiv (vadd (vadd (vadd b.Open b.High) b.Low) b.Close) 4

/-- The `ha_open` loop in the NaN-aware model. -/
def haOpenAuxN (prevOpen : Option ℚ) (prevBar : BarN) : List BarN → List (Option ℚ)
  | [] => []
  | b :: bs =>
    let o := vdiv (vadd prevOpen (haCloseN prevBar)) 2
    o :: haOpenAuxN o b bs

/-- The full `ha_open` list in the NaN-aware model. -/
def haOpenListN : List BarN → List (Option ℚ)
  | [] => []
  | b :: bs =>
    (vdiv (vadd b.Open b.Close) 2) :: haOpenAuxN (vdiv (vadd b.Open b.Close) 2) b bs

/-- One smoothed row in the NaN-aware model; `High`/`Low` use the
skipna max/min, like the pandas `concat(...).max(axis=1)` of the source. -/
def mkHABarN (b : BarN) (o : Option ℚ) : HABarN :=
  { Open := o
    High := vmax2 b.High (vmax2 o (haCloseN b))
    Low := vmin2 b.Low (vmin2 o (haCloseN b))
    Close := haCloseN b }

/-- `compute_heikin_ashi` in the NaN-aware model. -/
def computeHeikinAshiN (df : List BarN) : Option (List HABarN) :=
  match df with
  | [] => none
  | _ :: _ => some (List.zipWith mkHABarN df (haOpenListN df))

/-- `match_pattern_last4` in the NaN-aware model: every strict comparison
against NaN is `false`. -/
def matchPatternLast4N (ha : List HABarN) : Bool :=
  if ha.length < 4 then false
  else
    match ha.drop (ha.length - 4) with
    | [b0, b1, b2, b3] =>
      ([b0, b1, b2].countP (fun b => vlt b.Close b.Open) == 3)
        && vlt b3.Open b3.Close && vlt b2.Close b3.Close
    | _ => false

-- ### Concrete inputs used by witnesses and counterexamples

/-- The spec's synthetic four-bar example: three strict down bars, then an
up bar closing above the prior close. -/
def haEx : List HABar := [⟨10, 10, 9, 9⟩, ⟨9, 9, 8, 8⟩, ⟨8, 8, 7, 7⟩, ⟨7, 8, 7, 8⟩]

/-- A five-bar series whose last four bars agree with `haEx` on `Open` and
`Close` but differ on `High`/`Low`. -/
def haEx2 : List HABar :=
  [⟨5, 5, 5, 5⟩, ⟨10, 11, 8, 9⟩, ⟨9, 10, 7, 8⟩, ⟨8, 9, 6, 7⟩, ⟨7, 9, 6, 8⟩]

/-- A two-bar raw series. -/
def dfEx2 : List Bar := [⟨1, 2, 0, 1⟩, ⟨2, 3, 1, 2⟩]

/-- The smoothed series of `dfEx2`. -/
def outEx2 : List HABar := [⟨1, 2, 0, 1⟩, ⟨1, 3, 1, 2⟩]

/-- A one-bar raw series. -/
def dfEx1 : List Bar := [⟨1, 1, 1, 1⟩]

/-- Raw series in the NaN-aware model: NaN in bar 1's close, bar 0 clean. -/
def dfCexN : List BarN :=
  [⟨some 1, some 1, some 1, some 1⟩, ⟨some 1, some 1, some 1, none⟩]

/-- The smoothed series of `dfCexN`: bar 1's `Open` is the clean value 1,
not NaN, because the recurrence reads only bar 0's values. -/
def outCexN : List HABarN :=
  [⟨some 1, some 1, some 1, some 1⟩, ⟨some 1, some 1, some 1, none⟩]

/-- Raw series of length 4 with NaN in bar 0's close. -/
def dfWitN : List BarN :=
  [⟨some 1, some 1, some 1, none⟩, ⟨some 1, some 1, some 1, some 1⟩,
   ⟨some 1, some 1, some 1, some 1⟩, ⟨some 1, some 1, some 1, some 1⟩]

/-- The smoothed series of `dfWitN`: every `Open` is NaN. -/
def outWitN : List HABarN :=
  [⟨none, some 1, some 1, none⟩, ⟨none, some 1, some 1, some 1⟩,
   ⟨none, some 1, some 1, some 1⟩, ⟨none, some 1, some 1, some 1⟩]

-- ### Structural helper lemmas

lemma length_haOpenAux (p : ℚ) (b : Bar) (l : List Bar) :
    (haOpenAux p b l).length = l.length := by
  induction l generalizing p b with
  | nil => rfl
  | cons x xs ih => simp [haOpenAux, ih]

lemma length_haOpenList (l : List Bar) : (haOpenList l).length = l.length := by
  cases l with
  | nil => rfl
  | cons b bs => simp [haOpenList, length_haOpenAux]

lemma eq_four_of_length_eq_four {α : Type} (l : List α) (h : l.length = 4) :
    ∃ a b c d, l = [a, b, c, d] := by
  match l, h with
  | [a, b, c, d], _ => exact ⟨a, b, c, d, rfl⟩

lemma exists_last4 {α : Type} (l : List α) (h : 4 ≤ l.length) :
    ∃ pre b0 b1 b2 b3, l = pre ++ [b0, b1, b2, b3] := by
  have hsplit : l = l.take (l.length - 4) ++ l.drop (l.length - 4) :=
    (List.take_append_drop _ l).symm
  have hlen : (l.drop (l.length - 4)).length = 4 := by
    rw [List.length_drop]; omega
  obtain ⟨a, b, c, d, hd⟩ := eq_four_of_length_eq_four _ hlen
  exact ⟨l.take (l.length - 4), a, b, c, d, by rw [← hd]; exact hsplit⟩

lemma matchPatternLast4_append (pre : List HABar) (b0 b1 b2 b3 : HABar) :
    matchPatternLast4 (pre ++ [b0, b1, b2, b3]) =
      (([b0, b1, b2].countP (fun b => decide (b.Close < b.Open)) == 3)
        && decide (b3.Close > b3.Open) && decide (b3.Close > b2.Close)) := by
  have hlen : (pre ++ [b0, b1, b2, b3]).length = pre.length + 4 := by simp
  have hsub : (pre ++ [b0, b1, b2, b3]).length - 4 = pre.length := by omega
  unfold matchPatternLast4
  rw [if_neg (by omega), hsub, List.drop_left]

lemma countP_three {α : Type} (p : α → Bool) (a b c : α) :
    ([a, b, c].countP p = 3) ↔ (p a ∧ p b ∧ p c) := by
  simp only [List.countP_cons, List.countP_nil]
  cases ha : p a <;> cases hb : p b <;> cases hc : p c <;> simp

/-- The matcher, characterised by index arithmetic on the last four bars:
this is the bridge used by the claim theorems. -/
lemma matchPatternLast4_iff (ha : List HABar) (h : 4 ≤ ha.length) :
    matchPatternLast4 ha = true ↔
      (((ha.getD (ha.length - 4) dumHA).Close < (ha.getD (ha.length - 4) dumHA).Open ∧
        (ha.getD (ha.length - 3) dumHA).Close < (ha.getD (ha.length - 3) dumHA).Open ∧
        (ha.getD (ha.length - 2) dumHA).Close < (ha.getD (ha.length - 2) dumHA).Open) ∧
       (ha.getD (ha.length - 1) dumHA).Close > (ha.getD (ha.length - 1) dumHA).Open ∧
       (ha.getD (ha.length - 1) dumHA).Close > (ha.getD (ha.length - 2) dumHA).Close) := by
  obtain ⟨pre, b0, b1, b2, b3, rfl⟩ := exists_last4 ha h
  have hlen : (pre ++ [b0, b1, b2, b3]).length = pre.length + 4 := by simp
  have h4 : (pre ++ [b0, b1, b2, b3]).length - 4 = pre.length + 0 := by omega
  have h3 : (pre ++ [b0, b1, b2, b3]).length - 3 = pre.length + 1 := by omega
  have h2 : (pre ++ [b0, b1, b2, b3]).length - 2 = pre.length + 2 := by omega
  have h1 : (pre ++ [b0, b1, b2, b3]).length - 1 = pre.length + 3 := by omega
  have hget : ∀ k : ℕ, (pre ++ [b0, b1, b2, b3]).getD (pre.length + k) dumHA =
      ([b0, b1, b2, b3].getD k dumHA) := by
    intro k
    rw [List.getD_append_right _ _ _ _ (Nat.le_add_right _ _), Nat.add_sub_cancel_left]
  rw [matchPatternLast4_append, h4, h3, h2, h1, hget, hget, hget, hget]
  simp only [List.getD]
  constructor
  · intro hb
    simp only [Bool.and_eq_true, beq_iff_eq, decide_eq_true_eq] at hb
    obtain ⟨⟨hcount, hg⟩, hc⟩ := hb
    rw [countP_three] at hcount
    simp only [decide_eq_true_eq] at hcount
    exact ⟨hcount, hg, hc⟩
  · intro hb
    obtain ⟨⟨r0, r1, r2⟩, hg, hc⟩ := hb
    simp only [Bool.and_eq_true, beq_iff_eq, decide_eq_true_eq]
    refine ⟨⟨?_, hg⟩, hc⟩
    rw [countP_three]
    simp only [decide_eq_true_eq]
    exact ⟨r0, r1, r2⟩

lemma getD_zipWith_poly {α β γ : Type} (f : α → β → γ) (l₁ : List α) (l₂ : List β)
    (da : α) (db : β) (dc : γ) (i : ℕ) (h₁ : i < l₁.length) (h₂ : i < l₂.length) :
    (List.zipWith f l₁ l₂).getD i dc = f (l₁.getD i da) (l₂.getD i db) := by
  induction l₁ generalizing l₂ i with
  | nil => simp at h₁
  | cons x xs ih =>
    cases l₂ with
    | nil => simp at h₂
    | cons y ys =>
      cases i with
      | zero => rfl
      | succ k =>
        simp only [List.zipWith_cons_cons, List.getD_cons_succ]
        exact ih ys k (by simpa using h₁) (by simpa using h₂)

lemma computeHA_length (df : List Bar) (out : List HABar)
    (h : computeHeikinAshi df = some out) : out.length = df.length := by
  cases df with
  | nil => simp [computeHeikinAshi] at h
  | cons b bs =>
    simp only [computeHeikinAshi, Option.some.injEq] at h
    subst h
    simp [length_haOpenList]

lemma computeHA_getD (df : List Bar) (out : List HABar)
    (h : computeHeikinAshi df = some out) (i : ℕ) (hi : i < df.length) :
    out.getD i dumHA = mkHABar (df.getD i dumBar) ((haOpenList df).getD i 0) := by
  cases df with
  | nil => simp [computeHeikinAshi] at h
  | cons b bs =>
    simp only [computeHeikinAshi, Option.some.injEq] at h
    subst h
    exact getD_zipWith_poly mkHABar _ _ dumBar 0 dumHA i hi
      (by rw [length_haOpenList]; exact hi)

lemma haOpenAux_getD_succ (l : List Bar) (p : ℚ) (b : Bar) (i : ℕ)
    (h : i + 1 < l.length) :
    (haOpenAux p b l).getD (i + 1) 0
      = ((haOpenAux p b l).getD i 0 + haClose (l.getD i dumBar)) / 2 := by
  induction l generalizing p b i with
  | nil => simp at h
  | cons x xs ih =>
    cases i with
    | zero =>
      cases xs with
      | nil => simp at h
      | cons y ys => simp [haOpenAux, List.getD]
    | succ j =>
      have hj : j + 1 < xs.length := by simpa using h
      simpa [haOpenAux, List.getD] using ih ((p + haClose b) / 2) x j hj

lemma haOpenList_getD_succ (df : List Bar) (i : ℕ) (h : i + 1 < df.length) :
    (haOpenList df).getD (i + 1) 0
      = ((haOpenList df).getD i 0 + haClose (df.getD i dumBar)) / 2 := by
  cases df with
  | nil => simp at h
  | cons b bs =>
    cases i with
    | zero =>
      cases bs with
      | nil => simp at h
      | cons y ys => simp [haOpenList, haOpenAux, List.getD]
    | succ j =>
      have hj : j + 1 < bs.length := by simpa using h
      simpa [haOpenList, List.getD] using haOpenAux_getD_succ bs _ b j hj

-- ### Claim theorems: rational-valued model

/-- C1: for every smoothed series of length at least 4, the matcher returns
`true` iff the three bars at indices `n-4`, `n-3`, `n-2` each close strictly
below their open (all three down bars), the bar at `n-1` closes strictly
above its open, and the close at `n-1` strictly exceeds the close at `n-2`;
otherwise it returns `false`. Flat bars (`Close = Open`) satisfy neither
strict comparison. -/
theorem matcher_rule_iff (ha : List HABar) (h : 4 ≤ ha.length) :
    matchPatternLast4 ha = true ↔
      (((ha.getD (ha.length - 4) dumHA).Close < (ha.getD (ha.length - 4) dumHA).Open ∧
        (ha.getD (ha.length - 3) dumHA).Close < (ha.getD (ha.length - 3) dumHA).Open ∧
        (ha.getD (ha.length - 2) dumHA).Close < (ha.getD (ha.length - 2) dumHA).Open) ∧
       (ha.getD (ha.length - 1) dumHA).Close > (ha.getD (ha.length - 1) dumHA).Open ∧
       (ha.getD (ha.length - 1) dumHA).Close > (ha.getD (ha.length - 2) dumHA).Close) :=
  matchPatternLast4_iff ha h

/-- Witness for C1: the spec's synthetic example matches. -/
theorem matcher_rule_iff_witness : matchPatternLast4 haEx = true :=
  (matcher_rule_iff haEx (by decide)).mpr (by decide)

/-- C2: for indices `i ≥ 1`, `smoothed.open[i] = (smoothed.open[i-1] +
smoothed.close[i-1]) / 2`, and for every index `j`,
`smoothed.close[j] = (raw.open[j] + raw.high[j] + raw.low[j] + raw.close[j]) / 4`. -/
theorem transformer_recurrence (df : List Bar) (out : List HABar) (i j : ℕ)
    (h : computeHeikinAshi df = some out) (h1 : 1 ≤ i) (h2 : i < df.length)
    (hj : j < df.length) :
    (out.getD i dumHA).Open
        = ((out.getD (i - 1) dumHA).Open + (out.getD (i - 1) dumHA).Close) / 2
      ∧ (out.getD j dumHA).Close
        = ((df.getD j dumBar).Open + (df.getD j dumBar).High
            + (df.getD j dumBar).Low + (df.getD j dumBar).Close) / 4 := by
  constructor
  · rw [computeHA_getD df out h i h2, computeHA_getD df out h (i - 1) (by omega)]
    simp only [mkHABar]
    have hs := haOpenList_getD_succ df (i - 1) (by omega)
    have hi : i - 1 + 1 = i := by omega
    rw [hi] at hs
    exact hs
  · rw [computeHA_getD df out h j hj]
    simp [mkHABar, haClose]

/-- Witness for C2 at `dfEx2`, `i = 1`, `j = 0`. -/
theorem transformer_recurrence_witness :
    (outEx2.getD 1 dumHA).Open
        = ((outEx2.getD 0 dumHA).Open + (outEx2.getD 0 dumHA).Close) / 2
      ∧ (outEx2.getD 0 dumHA).Close
        = ((dfEx2.getD 0 dumBar).Open + (dfEx2.getD 0 dumBar).High
            + (dfEx2.getD 0 dumBar).Low + (dfEx2.getD 0 dumBar).Close) / 4 :=
  transformer_recurrence dfEx2 outEx2 1 0 (by norm_num [computeHeikinAshi, dfEx2, outEx2, haOpenList, haOpenAux, mkHABar, haClose, max_def, min_def]) (by decide) (by decide) (by decide)

/-- C3: the recurrence is seeded from the raw bar at index 0:
`smoothed.open[0] = (raw.open[0] + raw.close[0]) / 2`. -/
theorem transformer_seed (df : List Bar) (out : List HABar)
    (h : computeHeikinAshi df = some out) :
    (out.getD 0 dumHA).Open
      = ((df.getD 0 dumBar).Open + (df.getD 0 dumBar).Close) / 2 := by
  cases df with
  | nil => simp [computeHeikinAshi] at h
  | cons b bs =>
    rw [computeHA_getD _ _ h 0 (by simp)]
    simp [mkHABar, haOpenList, List.getD]

/-- Witness for C3 at `dfEx2`. -/
theorem transformer_seed_witness :
    (outEx2.getD 0 dumHA).Open
      = ((dfEx2.getD 0 dumBar).Open + (dfEx2.getD 0 dumBar).Close) / 2 :=
  transformer_seed dfEx2 outEx2 (by norm_num [computeHeikinAshi, dfEx2, outEx2, haOpenList, haOpenAux, mkHABar, haClose, max_def, min_def])

/-- C4: `smoothed.high[i]` is the max of the raw high, the smoothed open and
the smoothed close; `smoothed.low[i]` the corresponding min; hence every
smoothed bar satisfies `low ≤ open ≤ high` and `low ≤ close ≤ high`. -/
theorem transformer_high_low_bounds (df : List Bar) (out : List HABar) (i : ℕ)
    (h : computeHeikinAshi df = some out) (hi : i < df.length) :
    (out.getD i dumHA).High
        = max (df.getD i dumBar).High
            (max (out.getD i dumHA).Open (out.getD i dumHA).Close)
      ∧ (out.getD i dumHA).Low
        = min (df.getD i dumBar).Low
            (min (out.getD i dumHA).Open (out.getD i dumHA).Close)
      ∧ (out.getD i dumHA).Low ≤ (out.getD i dumHA).Open
      ∧ (out.getD i dumHA).Open ≤ (out.getD i dumHA).High
      ∧ (out.getD i dumHA).Low ≤ (out.getD i dumHA).Close
      ∧ (out.getD i dumHA).Close ≤ (out.getD i dumHA).High := by
  rw [computeHA_getD df out h i hi]
  simp only [mkHABar]
  refine ⟨trivial, trivial, ?_, ?_, ?_, ?_⟩
  · exact (min_le_right _ _).trans (min_le_left _ _)
  · exact (le_max_left _ _).trans (le_max_right _ _)
  · exact (min_le_right _ _).trans (min_le_right _ _)
  · exact (le_max_right _ _).trans (le_max_right _ _)

/-- Witness for C4 at `dfEx2`, `i = 1`. -/
theorem transformer_high_low_bounds_witness :
    (outEx2.getD 1 dumHA).High
        = max (dfEx2.getD 1 dumBar).High
            (max (outEx2.getD 1 dumHA).Open (outEx2.getD 1 dumHA).Close)
      ∧ (outEx2.getD 1 dumHA).Low
        = min (dfEx2.getD 1 dumBar).Low
            (min (outEx2.getD 1 dumHA).Open (outEx2.getD 1 dumHA).Close)
      ∧ (outEx2.getD 1 dumHA).Low ≤ (outEx2.getD 1 dumHA).Open
      ∧ (outEx2.getD 1 dumHA).Open ≤ (outEx2.getD 1 dumHA).High
      ∧ (outEx2.getD 1 dumHA).Low ≤ (outEx2.getD 1 dumHA).Close
      ∧ (outEx2.getD 1 dumHA).Close ≤ (outEx2.getD 1 dumHA).High :=
  transformer_high_low_bounds dfEx2 outEx2 1 (by norm_num [computeHeikinAshi, dfEx2, outEx2, haOpenList, haOpenAux, mkHABar, haClose, max_def, min_def]) (by decide)

/-- C5: a non-empty raw series of length `n` yields a smoothed series of
exactly length `n`. -/
theorem transformer_shape_preservation (df : List Bar) (h : df ≠ []) :
    ∃ out, computeHeikinAshi df = some out ∧ out.length = df.length := by
  cases df with
  | nil => exact absurd rfl h
  | cons b bs => exact ⟨_, rfl, computeHA_length _ _ rfl⟩

/-- Witness for C5 at the one-bar series `dfEx1`. -/
theorem transformer_shape_preservation_witness :
    ∃ out, computeHeikinAshi dfEx1 = some out ∧ out.length = dfEx1.length :=
  transformer_shape_preservation dfEx1 (by decide)

/-- C6: any series shorter than 4 bars yields `false` (no signal, not an
error); `matchPatternLast4` is a total function, so no input raises. -/
theorem matcher_totality_short_series (ha : List HABar) (h : ha.length < 4) :
    matchPatternLast4 ha = false := by
  unfold matchPatternLast4
  rw [if_pos h]

/-- Witness for C6 at the empty series. -/
theorem matcher_totality_short_series_witness : matchPatternLast4 [] = false :=
  matcher_totality_short_series [] (by decide)

/-- C7 counterexample: on the length-0 input the transformer does not return
a result (the source raises `IndexError` at `df["Open"].iloc[0]`), so it is
not total over length-0 input as claimed. -/
theorem transformer_empty_input_errors : computeHeikinAshi [] = none := rfl

/-- C7 amended: the transformer is total over every NON-empty well-typed
numeric input sequence. -/
theorem transformer_total_on_nonempty (df : List Bar) (h : df ≠ []) :
    ∃ out, computeHeikinAshi df = some out := by
  cases df with
  | nil => exact absurd rfl h
  | cons b bs => exact ⟨_, rfl⟩

/-- Witness for the amended C7. -/
theorem transformer_total_on_nonempty_witness :
    ∃ out, computeHeikinAshi [dumBar] = some out :=
  transformer_total_on_nonempty [dumBar] (by decide)

/-- C9: the transformer is a pure function of its input — two runs on the
same raw series give identical output. -/
theorem transformer_deterministic :
    ∀ df : List Bar, computeHeikinAshi df = computeHeikinAshi df :=
  fun _ => rfl

/-- C10: the matcher reads only the `Open` and `Close` fields of the last
four bars — two series of length at least 4 agreeing there get the same
answer. -/
theorem matcher_depends_only_on_last4 (ha₁ ha₂ : List HABar)
    (h₁ : 4 ≤ ha₁.length) (h₂ : 4 ≤ ha₂.length)
    (hw : ∀ k, k < 4 →
      (ha₁.getD (ha₁.length - 4 + k) dumHA).Open
          = (ha₂.getD (ha₂.length - 4 + k) dumHA).Open ∧
        (ha₁.getD (ha₁.length - 4 + k) dumHA).Close
          = (ha₂.getD (ha₂.length - 4 + k) dumHA).Close) :
    matchPatternLast4 ha₁ = matchPatternLast4 ha₂ := by
  obtain ⟨p₁, a0, a1, a2, a3, rfl⟩ := exists_last4 ha₁ h₁
  obtain ⟨p₂, b0, b1, b2, b3, rfl⟩ := exists_last4 ha₂ h₂
  have hg : ∀ (p : List HABar) (c0 c1 c2 c3 : HABar) (k : ℕ),
      (p ++ [c0, c1, c2, c3]).getD ((p ++ [c0, c1, c2, c3]).length - 4 + k) dumHA
        = [c0, c1, c2, c3].getD k dumHA := by
    intro p c0 c1 c2 c3 k
    have hlen : (p ++ [c0, c1, c2, c3]).length = p.length + 4 := by simp
    have he : (p ++ [c0, c1, c2, c3]).length - 4 + k = p.length + k := by omega
    rw [he, List.getD_append_right _ _ _ _ (Nat.le_add_right _ _),
      Nat.add_sub_cancel_left]
  have w0 := hw 0 (by omega)
  have w1 := hw 1 (by omega)
  have w2 := hw 2 (by omega)
  have w3 := hw 3 (by omega)
  rw [hg p₁ a0 a1 a2 a3 0, hg p₂ b0 b1 b2 b3 0] at w0
  rw [hg p₁ a0 a1 a2 a3 1, hg p₂ b0 b1 b2 b3 1] at w1
  rw [hg p₁ a0 a1 a2 a3 2, hg p₂ b0 b1 b2 b3 2] at w2
  rw [hg p₁ a0 a1 a2 a3 3, hg p₂ b0 b1 b2 b3 3] at w3
  simp only [List.getD_cons_zero, List.getD_cons_succ] at w0 w1 w2 w3
  rw [matchPatternLast4_append, matchPatternLast4_append]
  simp only [List.countP_cons, List.countP_nil]
  rw [w0.1, w0.2, w1.1, w1.2, w2.1, w2.2, w3.1, w3.2]

/-- Witness for C10: `haEx` and the longer `haEx2` agree on the last four
bars' `Open`/`Close` (their `High`/`Low` differ) and get the same answer. -/
theorem matcher_depends_only_on_last4_witness :
    matchPatternLast4 haEx = matchPatternLast4 haEx2 :=
  matcher_depends_only_on_last4 haEx haEx2 (by decide) (by decide) (by decide)

-- ### NaN-model lemmas

lemma vadd_none_left (x : Option ℚ) : vadd none x = none := by cases x <;> rfl

lemma vadd_none_right (x : Option ℚ) : vadd x none = none := by cases x <;> rfl

lemma vdiv_none (q : ℚ) : vdiv none q = none := rfl

lemma vlt_false_of_none {a b : Option ℚ} (h : a = none ∨ b = none) :
    vlt a b = false := by
  rcases h with h | h <;> subst h
  · cases b <;> rfl
  · cases a <;> rfl

lemma haCloseN_none (b : BarN) (h : b.Close = none) : haCloseN b = none := by
  unfold haCloseN
  rw [h, vadd_none_right, vdiv_none]

lemma length_haOpenAuxN (p : Option ℚ) (b : BarN) (l : List BarN) :
    (haOpenAuxN p b l).length = l.length := by
  induction l generalizing p b with
  | nil => rfl
  | cons x xs ih => simp [haOpenAuxN, ih]

lemma length_haOpenListN (l : List BarN) : (haOpenListN l).length = l.length := by
  cases l with
  | nil => rfl
  | cons b bs => simp [haOpenListN, length_haOpenAuxN]

lemma computeHAN_length (df : List BarN) (out : List HABarN)
    (h : computeHeikinAshiN df = some out) : out.length = df.length := by
  cases df with
  | nil => simp [computeHeikinAshiN] at h
  | cons b bs =>
    simp only [computeHeikinAshiN, Option.some.injEq] at h
    subst h
    simp [length_haOpenListN]

lemma computeHAN_getD (df : List BarN) (out : List HABarN)
    (h : computeHeikinAshiN df = some out) (i : ℕ) (hi : i < df.length) :
    out.getD i dumHAN = mkHABarN (df.getD i dumBarN) ((haOpenListN df).getD i none) := by
  cases df with
  | nil => simp [computeHeikinAshiN] at h
  | cons b bs =>
    simp only [computeHeikinAshiN, Option.some.injEq] at h
    subst h
    exact getD_zipWith_poly mkHABarN _ _ dumBarN none dumHAN i hi
      (by rw [length_haOpenListN]; exact hi)

lemma haOpenAuxN_getD_succ (l : List BarN) (p : Option ℚ) (b : BarN) (i : ℕ)
    (h : i + 1 < l.length) :
    (haOpenAuxN p b l).getD (i + 1) none
      = vdiv (vadd ((haOpenAuxN p b l).getD i none) (haCloseN (l.getD i dumBarN))) 2 := by
  induction l generalizing p b i with
  | nil => simp at h
  | cons x xs ih =>
    cases i with
    | zero =>
      cases xs with
      | nil => simp at h
      | cons y ys => simp [haOpenAuxN, List.getD]
    | succ j =>
      have hj : j + 1 < xs.length := by simpa using h
      simpa [haOpenAuxN, List.getD] using ih (vdiv (vadd p (haCloseN b)) 2) x j hj

lemma haOpenListN_getD_succ (df : List BarN) (i : ℕ) (h : i + 1 < df.length) :
    (haOpenListN df).getD (i + 1) none
      = vdiv (vadd ((haOpenListN df).getD i none) (haCloseN (df.getD i dumBarN))) 2 := by
  cases df with
  | nil => simp at h
  | cons b bs =>
    cases i with
    | zero =>
      cases bs with
      | nil => simp at h
      | cons y ys => simp [haOpenListN, haOpenAuxN, List.getD]
    | succ j =>
      have hj : j + 1 < bs.length := by simpa using h
      simpa [haOpenListN, List.getD] using haOpenAuxN_getD_succ bs _ b j hj

lemma haOpenListN_none_from (df : List BarN) (i : ℕ) (_hi : i < df.length)
    (h : haCloseN (df.getD i dumBarN) = none) :
    ∀ j, i < j → j < df.length → (haOpenListN df).getD j none = none := by
  intro j
  induction j with
  | zero => omega
  | succ k ih =>
    intro h1 h2
    rw [haOpenListN_getD_succ df k (by omega)]
    by_cases hk : i = k
    · subst hk
      rw [h, vadd_none_right, vdiv_none]
    · rw [ih (by omega) (by omega), vadd_none_left, vdiv_none]

lemma matchPatternLast4N_append (pre : List HABarN) (b0 b1 b2 b3 : HABarN) :
    matchPatternLast4N (pre ++ [b0, b1, b2, b3]) =
      (([b0, b1, b2].countP (fun b => vlt b.Close b.Open) == 3)
        && vlt b3.Open b3.Close && vlt b2.Close b3.Close) := by
  have hlen : (pre ++ [b0, b1, b2, b3]).length = pre.length + 4 := by simp
  have hsub : (pre ++ [b0, b1, b2, b3]).length - 4 = pre.length := by omega
  unfold matchPatternLast4N
  rw [if_neg (by omega), hsub, List.drop_left]

lemma countP3_ne_three {p : HABarN → Bool} {b0 b1 b2 : HABarN}
    (h : p b0 = false ∨ p b1 = false ∨ p b2 = false) :
    ([b0, b1, b2].countP p) ≠ 3 := by
  cases h0 : p b0 <;> cases h1 : p b1 <;> cases h2 : p b2 <;>
    simp_all [List.countP_cons, List.countP_nil]

lemma matchN_false_of_window_nan (ha : List HABarN) (k : ℕ) (h4 : 4 ≤ ha.length)
    (hk1 : ha.length - 4 ≤ k) (hk2 : k < ha.length)
    (hnan : (ha.getD k dumHAN).Open = none ∨ (ha.getD k dumHAN).Close = none) :
    matchPatternLast4N ha = false := by
  obtain ⟨pre, b0, b1, b2, b3, rfl⟩ := exists_last4 ha h4
  have hlen : (pre ++ [b0, b1, b2, b3]).length = pre.length + 4 := by simp
  obtain ⟨m, hm4, rfl⟩ : ∃ m, m < 4 ∧ k = pre.length + m :=
    ⟨k - pre.length, by omega, by omega⟩
  rw [List.getD_append_right _ _ _ _ (Nat.le_add_right _ _),
    Nat.add_sub_cancel_left] at hnan
  rw [matchPatternLast4N_append]
  interval_cases m
  · simp only [List.getD_cons_zero] at hnan
    have hf : vlt b0.Close b0.Open = false := vlt_false_of_none hnan.symm
    have hc : ([b0, b1, b2].countP (fun b => vlt b.Close b.Open)) ≠ 3 :=
      countP3_ne_three (Or.inl hf)
    simp [hc]
  · simp only [List.getD_cons_succ, List.getD_cons_zero] at hnan
    have hf : vlt b1.Close b1.Open = false := vlt_false_of_none hnan.symm
    have hc : ([b0, b1, b2].countP (fun b => vlt b.Close b.Open)) ≠ 3 :=
      countP3_ne_three (Or.inr (Or.inl hf))
    simp [hc]
  · simp only [List.getD_cons_succ, List.getD_cons_zero] at hnan
    have hf : vlt b2.Close b2.Open = false := vlt_false_of_none hnan.symm
    have hc : ([b0, b1, b2].countP (fun b => vlt b.Close b.Open)) ≠ 3 :=
      countP3_ne_three (Or.inr (Or.inr hf))
    simp [hc]
  · simp only [List.getD_cons_succ, List.getD_cons_zero] at hnan
    have hf : vlt b3.Open b3.Close = false := vlt_false_of_none hnan
    simp [hf]

/-- C8 counterexample: in `dfCexN` bar 1's raw close is NaN, yet the
smoothed open at index 1 is the ordinary value 1, not NaN — the recurrence
for `open[i]` only reads bar `i-1`, so the claim "NaN in every
`smoothed.open[j]` for `j ≥ i`" fails at `i = j = 1`. -/
theorem nan_open_not_propagated_at_i :
    computeHeikinAshiN dfCexN = some outCexN
      ∧ (outCexN.getD 1 dumHAN).Close = none
      ∧ (outCexN.getD 1 dumHAN).Open = some 1 := by
  refine ⟨?_, by decide, by decide⟩
  norm_num [computeHeikinAshiN, dfCexN, outCexN, haOpenListN, haOpenAuxN,
    mkHABarN, haCloseN, vadd, vdiv, vmax2, vmin2, max_def, min_def]

/-- C8 amended: a NaN in bar `i`'s raw close makes `smoothed.close[i]` NaN
and every `smoothed.open[j]` NaN for `j ≥ i + 1` (also `smoothed.open[0]`
when `i = 0`, via the seed); and the matcher returns `false` whenever such a
NaN lies within the last-four-bar window. -/
theorem nan_propagation_amended (df : List BarN) (out : List HABarN) (i j : ℕ)
    (h : computeHeikinAshiN df = some out) (hi : i < df.length)
    (hnan : (df.getD i dumBarN).Close = none) :
    (out.getD i dumHAN).Close = none
      ∧ (i = 0 → (out.getD 0 dumHAN).Open = none)
      ∧ (i < j → j < df.length → (out.getD j dumHAN).Open = none)
      ∧ (4 ≤ df.length → df.length - 4 ≤ i → matchPatternLast4N out = false)
      ∧ (4 ≤ df.length → df.length - 4 ≤ j → i < j → j < df.length →
          matchPatternLast4N out = false) := by
  have hlen := computeHAN_length df out h
  have hcN : haCloseN (df.getD i dumBarN) = none := haCloseN_none _ hnan
  have hclose : (out.getD i dumHAN).Close = none := by
    rw [computeHAN_getD df out h i hi]
    simpa [mkHABarN] using hcN
  have hopen : ∀ k, i < k → k < df.length → (out.getD k dumHAN).Open = none := by
    intro k hk1 hk2
    rw [computeHAN_getD df out h k hk2]
    simp only [mkHABarN]
    exact haOpenListN_none_from df i hi hcN k hk1 hk2
  refine ⟨hclose, ?_, fun a b => hopen j a b, ?_, ?_⟩
  · intro h0
    subst h0
    rw [computeHAN_getD df out h 0 hi]
    simp only [mkHABarN]
    cases df with
    | nil => simp at hi
    | cons b bs =>
      simp only [List.getD_cons_zero] at hnan
      simp only [haOpenListN, List.getD_cons_zero]
      rw [hnan, vadd_none_right, vdiv_none]
  · intro h4 hwin
    exact matchN_false_of_window_nan out i (by omega) (by omega) (by omega)
      (Or.inr hclose)
  · intro h4 hwin hj1 hj2
    exact matchN_false_of_window_nan out j (by omega) (by omega) (by omega)
      (Or.inl (hopen j hj1 hj2))

/-- Witness for the amended C8 at `dfWitN` (NaN in bar 0's close),
`i = 0`, `j = 1`. -/
theorem nan_propagation_amended_witness :
    (outWitN.getD 0 dumHAN).Close = none
      ∧ (0 = 0 → (outWitN.getD 0 dumHAN).Open = none)
      ∧ (0 < 1 → 1 < dfWitN.length → (outWitN.getD 1 dumHAN).Open = none)
      ∧ (4 ≤ dfWitN.length → dfWitN.length - 4 ≤ 0 → matchPatternLast4N outWitN = false)
      ∧ (4 ≤ dfWitN.length → dfWitN.length - 4 ≤ 1 → 0 < 1 → 1 < dfWitN.length →
          matchPatternLast4N outWitN = false) :=
  nan_propagation_amended dfWitN outWitN 0 1
    (by norm_num [computeHeikinAshiN, dfWitN, outWitN, haOpenListN, haOpenAuxN,
      mkHABarN, haCloseN, vadd, vdiv, vmax2, vmin2, max_def, min_def])
    (by decide) (by decide)
